import Mathlib

/-!
Verification of the signal-to-forecast pipeline of The Oracle.

Shallow embedding of the algorithmic core:
  backend/features/timeseries.py        (TimeSeriesAnalyzer)
  backend/features/build_feature_matrix.py (FeatureMatrixBuilder)
  backend/forecasting/baseline.py       (BaselineForecaster)
  backend/forecasting/ranker.py         (SurgeRanker)

Numbers are modelled as rationals.  Calls into external numerical
libraries (statsmodels ARIMA / exponential-smoothing fits, `np.std`,
`pandas.Series.std`) return irrational values in general; they are
modelled as explicit oracle parameters, while every piece of arithmetic
the repository itself performs (EWMA, first differences, OLS, means,
variances, clamping, weighting, sorting, store updates) is translated
directly from the source.  `np.std(w) == 0` is equivalent to the
population variance of `w` being `0`, which is rational, so the
zero-std guard of `calculate_z_score_spike` is translated exactly.
-/

/-- Arithmetic mean, as used throughout the source via `np.mean` /
`pandas.mean`; the empty list yields `0/0 = 0` in Lean, a case every
caller in the source guards against. -/
def meanQ (l : List ℚ) : ℚ := l.sum / (l.length : ℚ)

/-- Population variance (`np.std(w)**2`, ddof = 0). -/
def popVariance (l : List ℚ) : ℚ :=
  meanQ (l.map (fun x => (x - meanQ l) ^ 2))

/-- Recursive step of `pandas.Series.ewm(alpha=a, adjust=False).mean()`:
`y_t = a*x_t + (1-a)*y_(t-1)`, carrying the previous smoothed value. -/
def ewmaFrom (a : ℚ) (prev : ℚ) : List ℚ → List ℚ
  | [] => []
  | x :: xs =>
    let e := a * x + (1 - a) * prev
    e :: ewmaFrom a e xs

/-- EWMA with `adjust=False`: the first smoothed value is the first
observation. -/
def ewma (a : ℚ) : List ℚ → List ℚ
  | [] => []
  | x :: xs => x :: ewmaFrom a x xs

/-- Consecutive first differences (`l[i+1] - l[i]`). -/
def diffs : List ℚ → List ℚ
  | a :: b :: rest => (b - a) :: diffs (b :: rest)
  | _ => []

/-- TimeSeriesAnalyzer.calculate_velocity (timeseries.py:25-42): inputs
shorter than 2 give an all-zero list of the same length; otherwise the
EWMA of the input is taken and the velocity list is `0` followed by the
first differences of the EWMA. -/
def calculate_velocity (a : ℚ) (values : List ℚ) : List ℚ :=
  if values.length < 2 then List.replicate values.length 0
  else 0 :: diffs (ewma a values)

/-- TimeSeriesAnalyzer.calculate_acceleration (timeseries.py:44-54):
first differences of the velocity list, first element 0. -/
def calculate_acceleration (velocity : List ℚ) : List ℚ :=
  if velocity.length < 2 then List.replicate velocity.length 0
  else 0 :: diffs velocity

/-- TimeSeriesAnalyzer.calculate_z_score_spike (timeseries.py:56-81).
`stdFn` models `np.std` on the trailing window (an irrational square
root in general); the guard `std_val == 0` is translated as
`popVariance w = 0`, which is equivalent for the real `np.std`. -/
def calculate_z_score_spike (stdFn : List ℚ → ℚ) (values : List ℚ) (window : ℕ) : List ℚ :=
  if values.length < window then List.replicate values.length 0
  else (List.range values.length).map (fun i =>
    if i < window then 0
    else
      let wvals := (values.drop (i - window)).take window
      if popVariance wvals = 0 then 0
      else (values.getD i 0 - meanQ wvals) / stdFn wvals)

/-- TimeSeriesAnalyzer.calculate_convergence (timeseries.py:83-105):
the per-source count dictionary is modelled as an association list; at
each index up to the minimum length, the fraction of sources with a
strictly positive count. -/
def calculate_convergence (srcs : List (String × List ℤ)) : List ℚ :=
  match srcs with
  | [] => []
  | s :: rest =>
    let minLen := rest.foldl (fun m t => min m t.2.length) s.2.length
    let total := (s :: rest).length
    (List.range minLen).map (fun i =>
      let active := ((s :: rest).filter (fun t => decide (0 < t.2.getD i 0))).length
      (active : ℚ) / (total : ℚ))

/-- TimeSeriesAnalyzer.detect_change_points (timeseries.py:107-119):
indices whose z-score (window 7, the analyzer default) exceeds the
threshold in absolute value; fewer than 3 points give `[]`. -/
def detect_change_points (stdFn : List ℚ → ℚ) (values : List ℚ) (threshold : ℚ) : List ℕ :=
  if values.length < 3 then []
  else
    let zs := calculate_z_score_spike stdFn values 7
    (zs.enum.filter (fun p => decide (threshold < |p.2|))).map Prod.fst

/-- TimeSeriesAnalyzer.smooth_series (timeseries.py:121-136): trailing
moving average; an input shorter than the window is returned unchanged. -/
def smooth_series (values : List ℚ) (window : ℕ) : List ℚ :=
  if values.length < window then values
  else (List.range values.length).map (fun i =>
    if i < window - 1 then meanQ (values.take (i + 1))
    else meanQ ((values.drop (i + 1 - window)).take window))

/-- Ordinary least squares of a series against its index
(`np.polyfit(x, y, 1)` with `x = 0, 1, ...`), returning
`(slope, intercept)` in closed form. -/
def olsFit (ys : List ℚ) : ℚ × ℚ :=
  let n : ℚ := (ys.length : ℚ)
  let xs : List ℚ := (List.range ys.length).map (fun i : ℕ => (i : ℚ))
  let sx := xs.sum
  let sy := ys.sum
  let sxy := ((xs.zip ys).map (fun p => p.1 * p.2)).sum
  let sxx := (xs.map (fun x => x * x)).sum
  let slope := (n * sxy - sx * sy) / (n * sxx - sx * sx)
  let intercept := (sy - slope * sx) / n
  (slope, intercept)

/-- TimeSeriesAnalyzer.calculate_trend_strength (timeseries.py:138-160):
R-squared of the OLS line, `0` for a constant series or fewer than 2
points. -/
def calculate_trend_strength (values : List ℚ) : ℚ :=
  if values.length < 2 then 0
  else
    let p := olsFit values
    let xs : List ℚ := (List.range values.length).map (fun i : ℕ => (i : ℚ))
    let preds := xs.map (fun x => p.1 * x + p.2)
    let ssRes := ((values.zip preds).map (fun q => (q.1 - q.2) ^ 2)).sum
    let m := meanQ values
    let ssTot := (values.map (fun y => (y - m) ^ 2)).sum
    if ssTot = 0 then 0 else 1 - ssRes / ssTot

/-- TimeSeriesAnalyzer.calculate_volatility (timeseries.py:162-177):
trailing-window `np.std` (the oracle `stdFn`), zero before a full
window, all-zero for inputs shorter than the window. -/
def calculate_volatility (stdFn : List ℚ → ℚ) (values : List ℚ) (window : ℕ) : List ℚ :=
  if values.length < window then List.replicate values.length 0
  else (List.range values.length).map (fun i =>
    if i < window - 1 then 0
    else stdFn ((values.drop (i + 1 - window)).take window))

/-- Concrete standard-deviation oracle used to instantiate the
std-parametric functions at closed inputs; the instantiated statements
never consult it (every branch they exercise is guarded by a zero
variance or a short input). -/
def zeroStd : List ℚ → ℚ := fun _ => 0

/-- One point of a forecast curve (schemas/forecast.py ForecastPoint);
the date label plays no role in any claim and is omitted. -/
structure ForecastPoint where
  yhat : ℚ
  yhat_lower : Option ℚ
  yhat_upper : Option ℚ
deriving DecidableEq, Repr

/-- In-sample error metrics of a candidate model. -/
structure ModelMetrics where
  mae : ℚ
  mse : ℚ
deriving DecidableEq, Repr

/-- Result dictionary returned by each `_fit_*_model` helper of
BaselineForecaster (`model_params` is not consulted by any claim and is
omitted). -/
structure FitResult where
  forecast_curve : List ForecastPoint
  confidence_score : ℚ
  model_type : String
  model_metrics : ModelMetrics
deriving DecidableEq, Repr

/-- Surge-score weight configuration (settings.surge_score_weights). -/
structure SurgeWeights where
  velocity_growth : ℚ
  momentum : ℚ
  z_spike : ℚ
  convergence : ℚ
deriving DecidableEq, Repr

/-- One row of the per-topic feature DataFrame consumed by the
forecaster (baseline.py:149-158). -/
structure FeatureRow where
  velocity : ℚ
  acceleration : ℚ
  z_spike : ℚ
  convergence : ℚ
  mention_count_total : ℚ
deriving DecidableEq, Repr

/-- Confidence-score formula shared by all three candidate fits
(baseline.py:256, 294, 333): `max(0, 1 - mae/std)` when the series
standard deviation is positive, else `0`. -/
def confidenceScore (mae std : ℚ) : ℚ :=
  if 0 < std then max 0 (1 - mae / std) else 0

/-- Outputs of the external statsmodels ARIMA fit consumed by
`_fit_arima_model`: point forecasts, interval bounds, in-sample errors
and the series standard deviation. -/
structure ArimaOracle where
  yhat : ℕ → ℚ
  lower : ℕ → ℚ
  upper : ℕ → ℚ
  mae : ℚ
  mse : ℚ
  std : ℚ

/-- BaselineForecaster._fit_arima_model (baseline.py:199-264), with the
library fit abstracted as `o`: the curve is assembled point by point
over `range(horizon_days)`. -/
def fit_arima_model (o : ArimaOracle) (horizon : ℕ) : FitResult :=
  { forecast_curve := (List.range horizon).map
      (fun i => ⟨o.yhat i, some (o.lower i), some (o.upper i)⟩)
    confidence_score := confidenceScore o.mae o.std
    model_type := "ARIMA"
    model_metrics := ⟨o.mae, o.mse⟩ }

/-- Outputs of the external exponential-smoothing fit consumed by
`_fit_exponential_smoothing_model`. -/
structure EsOracle where
  yhat : ℕ → ℚ
  mae : ℚ
  mse : ℚ
  std : ℚ

/-- BaselineForecaster._fit_exponential_smoothing_model
(baseline.py:266-302): point estimates only, no interval bounds. -/
def fit_exponential_smoothing_model (o : EsOracle) (horizon : ℕ) : FitResult :=
  { forecast_curve := (List.range horizon).map (fun i => ⟨o.yhat i, none, none⟩)
    confidence_score := confidenceScore o.mae o.std
    model_type := "ExponentialSmoothing"
    model_metrics := ⟨o.mae, o.mse⟩ }

/-- BaselineForecaster._fit_simple_trend_model (baseline.py:304-341):
OLS line against the index, extrapolated to `intercept + slope*(n+i)`
and clamped non-negative via `max(0, .)`; mae/mse against the fitted
values.  `std` is the pandas sample standard deviation of the series
(irrational in general), an oracle parameter feeding only the
confidence score. -/
def fit_simple_trend_model (series : List ℚ) (std : ℚ) (horizon : ℕ) : FitResult :=
  let n := series.length
  let p := olsFit series
  let slope := p.1
  let intercept := p.2
  let curve := (List.range horizon).map
    (fun i : ℕ => ForecastPoint.mk (max 0 (intercept + slope * ((n : ℚ) + (i : ℚ)))) none none)
  let xs : List ℚ := (List.range n).map (fun i : ℕ => (i : ℚ))
  let fitted := xs.map (fun x => intercept + slope * x)
  let mae := meanQ ((series.zip fitted).map (fun q => |q.1 - q.2|))
  let mse := meanQ ((series.zip fitted).map (fun q => (q.1 - q.2) ^ 2))
  { forecast_curve := curve
    confidence_score := confidenceScore mae std
    model_type := "LinearTrend"
    model_metrics := ⟨mae, mse⟩ }

/-- Maximum of a list with a default for the empty case (`pandas.max`
is only invoked on non-empty frames in the source). -/
def maxListD (l : List ℚ) (d : ℚ) : ℚ :=
  match l with
  | [] => d
  | x :: xs => xs.foldl max x

/-- BaselineForecaster._calculate_surge_score (baseline.py:343-390):
weighted sum of velocity growth, positive momentum, significant z-spike
and convergence over the last 7 feature rows, a 1.2x boost when the
mean convergence exceeds 0.5, then a clamp into [0,1]. -/
def calculate_surge_score (w : SurgeWeights) (fd : List FeatureRow) (curve : List ForecastPoint) : ℚ :=
  let recent := fd.drop (fd.length - 7)
  if recent.isEmpty then 0
  else
    let current := (recent.map FeatureRow.velocity).getLastD 0
    let future := if 29 < curve.length then (curve.getD 29 ⟨0, none, none⟩).yhat else current
    let velocityGrowth := (future - current) / max current (1 / 1000)
    let momentum := max 0 (meanQ (recent.map FeatureRow.acceleration))
    let zComp := max 0 (maxListD (recent.map FeatureRow.z_spike) 0 - 2)
    let avgConv := meanQ (recent.map FeatureRow.convergence)
    let raw := w.velocity_growth * velocityGrowth + w.momentum * momentum +
      w.z_spike * zComp + w.convergence * avgConv
    let raw2 := if (1 / 2 : ℚ) < avgConv then raw * (12 / 10) else raw
    max 0 (min 1 raw2)

/-- One step of the model-selection loop of `_generate_forecast`
(baseline.py:183-191): a failed candidate (`none`) is skipped, a
successful one replaces the incumbent only on strictly smaller mae. -/
def updateBest (best : Option FitResult) (c : Option FitResult) : Option FitResult :=
  match c with
  | none => best
  | some r =>
    match best with
    | none => some r
    | some b => if r.model_metrics.mae < b.model_metrics.mae then some r else some b

/-- The model-selection loop over an arbitrary candidate list. -/
def generateForecastList (cands : List (Option FitResult)) : Option FitResult :=
  cands.foldl updateBest none

/-- BaselineForecaster._generate_forecast (baseline.py:165-197): the
candidates are tried in the fixed dictionary order ARIMA,
ExponentialSmoothing, Simple (linear trend); `none` stands for a
candidate whose fit raised and was caught. -/
def generate_forecast (arima es simple : Option FitResult) : Option FitResult :=
  generateForecastList [arima, es, simple]

/-- Helper: the running best of the selection fold, over the successful
candidates only. -/
def pickBest (b : FitResult) : List FitResult → FitResult
  | [] => b
  | x :: xs => pickBest (if x.model_metrics.mae < b.model_metrics.mae then x else b) xs

/-- Modelled from the spec selection rule: "the candidate with the
lowest mae wins; ties resolve to the first encountered in the fixed
iteration order".  Returns the earliest list element achieving the
minimal mae. -/
def firstLowestMae : List FitResult → Option FitResult
  | [] => none
  | x :: xs =>
    match firstLowestMae xs with
    | none => some x
    | some m => if x.model_metrics.mae ≤ m.model_metrics.mae then some x else some m

/-- One persisted forecast row (models/forecast.py TopicForecast;
model_params / model_metrics / timestamps are not consulted by any
claim and are omitted). -/
structure StoredForecast where
  topic_id : String
  horizon_days : ℕ
  forecast_curve : List ForecastPoint
  surge_score : ℚ
  confidence_score : ℚ
  model_type : String
deriving DecidableEq, Repr

/-- Replace the first row satisfying `p` (the SQLAlchemy `.first()` row
updated in place at baseline.py:113-121). -/
def replaceFirst (p : StoredForecast → Bool) (new : StoredForecast) : List StoredForecast → List StoredForecast
  | [] => []
  | x :: xs => if p x then new :: xs else x :: replaceFirst p new xs

/-- BaselineForecaster._forecast_topic_horizon (baseline.py:70-133).
The store is the list of persisted forecasts; the feature query and the
three candidate fits enter as parameters.  Returns the new store and
the count reported for the pair: 1 when a forecast already exists and
no rebuild is forced, 0 on insufficient data or when every candidate
failed, otherwise the new/updated store and 1. -/
def forecast_topic_horizon (store : List StoredForecast) (tid : String) (hz : ℕ)
    (force : Bool) (fd : List FeatureRow) (minPoints : ℕ)
    (cands : List (Option FitResult)) (w : SurgeWeights) : List StoredForecast × ℕ :=
  let keyP : StoredForecast → Bool := fun r => decide (r.topic_id = tid ∧ r.horizon_days = hz)
  let existing := store.filter keyP
  if existing ≠ [] ∧ force = false then (store, 1)
  else if fd.length < minPoints then (store, 0)
  else
    match generateForecastList cands with
    | none => (store, 0)
    | some fit =>
      let record : StoredForecast :=
        { topic_id := tid
          horizon_days := hz
          forecast_curve := fit.forecast_curve
          surge_score := calculate_surge_score w fd fit.forecast_curve
          confidence_score := fit.confidence_score
          model_type := fit.model_type }
      if existing ≠ [] then (replaceFirst keyP record store, 1)
      else (store ++ [record], 1)

/-- Per-topic entry of the batch result map of `forecast_all_topics`:
either the per-horizon counts or an error tag. -/
inductive TopicResult where
  | counts : List (String × ℕ) → TopicResult
  | error : String → TopicResult
deriving DecidableEq, Repr

/-- BaselineForecaster.forecast_all_topics (baseline.py:36-68): each
topic's inner horizon loop (which may raise, e.g. at commit) is the
parameter `runTopic`; an exception becomes an explicit error entry and
the loop continues with the next topic. -/
def forecast_all_topics (topics : List String)
    (runTopic : String → Except String (List (String × ℕ))) : List (String × TopicResult) :=
  topics.map (fun t => (t,
    match runTopic t with
    | Except.ok m => TopicResult.counts m
    | Except.error e => TopicResult.error e))

/-- Batch tally of baseline.py:61-65: error entries contribute 0, count
entries contribute the sum of their per-horizon counts. -/
def totalForecasts (results : List (String × TopicResult)) : ℕ :=
  (results.map (fun p =>
    match p.2 with
    | TopicResult.counts m => (m.map Prod.snd).sum
    | TopicResult.error _ => 0)).sum

/-- FeatureMatrixBuilder.build_feature_matrix (build_feature_matrix.py:
26-48): a per-topic exception is caught and recorded as count 0. -/
def build_feature_matrix (topics : List String)
    (runTopic : String → Except String ℕ) : List (String × ℕ) :=
  topics.map (fun t => (t,
    match runTopic t with
    | Except.ok n => n
    | Except.error _ => 0))

/-- Candidate entry consumed by SurgeRanker.rank_topics: the forecast
fields plus the most recent feature values (ranker.py:79-90). -/
structure RankCandidate where
  topic_id : String
  surge_score : ℚ
  confidence : ℚ
  growth_rate : ℚ
  recent_velocity : ℚ
  recent_convergence : ℚ
deriving DecidableEq, Repr

/-- Output entry of the leaderboard: the candidate, its composite score
and its 1-based rank. -/
structure RankedEntry where
  cand : RankCandidate
  ranking_score : ℚ
  rank : ℕ
deriving DecidableEq, Repr

/-- SurgeRanker._calculate_ranking_score (ranker.py:106-148) with the
hard-coded weights of ranker.py:36-42: weighted sum with normalised
velocity and growth components, a 1.1x bonus for convergence above 0.7
and a 0.8x penalty for confidence below 0.3. -/
def calculate_ranking_score (c : RankCandidate) : ℚ :=
  let velocityScore := min 1 (max 0 (c.recent_velocity / 10))
  let growthScore := min 1 (max 0 c.growth_rate)
  let s := (0.4 : ℚ) * c.surge_score + (0.2 : ℚ) * c.confidence +
    (0.2 : ℚ) * velocityScore + (0.1 : ℚ) * c.recent_convergence + (0.1 : ℚ) * growthScore
  let s2 := if (0.7 : ℚ) < c.recent_convergence then s * (1.1 : ℚ) else s
  if c.confidence < (0.3 : ℚ) then s2 * (0.8 : ℚ) else s2

/-- Clamp into an interval, as the spec writes it. -/
def clamp (x lo hi : ℚ) : ℚ := max lo (min hi x)

/-- Modelled from the spec wording of the ranking score:
`0.4*surge + 0.2*confidence + 0.2*clamp(velocity/10,0,1) +
0.1*convergence + 0.1*clamp(growth,0,1)`, then the 1.1x bonus for
convergence above 0.7 and the 0.8x penalty for confidence below 0.3. -/
def spec_ranking_score (c : RankCandidate) : ℚ :=
  let base := (0.4 : ℚ) * c.surge_score + (0.2 : ℚ) * c.confidence +
    (0.2 : ℚ) * clamp (c.recent_velocity / 10) 0 1 +
    (0.1 : ℚ) * c.recent_convergence + (0.1 : ℚ) * clamp c.growth_rate 0 1
  let b2 := if (0.7 : ℚ) < c.recent_convergence then base * (1.1 : ℚ) else base
  if c.confidence < (0.3 : ℚ) then b2 * (0.8 : ℚ) else b2

/-- Comparison used to sort the scored candidates descending by score;
Python's `list.sort(key=..., reverse=True)` is a stable sort, modelled
by `List.mergeSort` with this total preorder. -/
def rankingLe (a b : RankCandidate × ℚ) : Bool := decide (b.2 ≤ a.2)

/-- SurgeRanker.rank_topics (ranker.py:44-104), candidate scoring and
ordering: score every candidate, stably sort the full set descending by
score, then truncate to the limit and attach 1-based positional ranks
(ranker.py:96-104). -/
def rank_topics (l : List RankCandidate) (limit : ℕ) : List RankedEntry :=
  let scored := l.map (fun c => (c, calculate_ranking_score c))
  let sorted := scored.mergeSort rankingLe
  ((sorted.take limit).enum).map (fun p => ⟨p.2.1, p.2.2, p.1 + 1⟩)

/-- One raw signal event (models/signal_event.py), bucketed to a day. -/
structure SignalEvent where
  topic_id : String
  day : ℕ
  source : String
  magnitude : ℚ
deriving DecidableEq, Repr

/-- One persisted feature row (models/features.py TopicFeatures; the
random uuid primary key is omitted, identity is (topic_id, day)). -/
structure FeatureRecord where
  topic_id : String
  day : ℕ
  mention_count_total : ℕ
  mention_count_arxiv : ℕ
  mention_count_github : ℕ
  mention_count_jobs : ℕ
  mention_count_funding : ℕ
  magnitude_sum : ℚ
  unique_sources : ℕ
  velocity : ℚ
  acceleration : ℚ
  z_spike : ℚ
  convergence : ℚ
deriving DecidableEq, Repr

/-- Events of a given day. -/
def eventsOnDay (evs : List SignalEvent) (d : ℕ) : List SignalEvent :=
  evs.filter (fun e => decide (e.day = d))

/-- Summed magnitude of a day's events. -/
def dailyMagnitude (evs : List SignalEvent) (d : ℕ) : ℚ :=
  ((eventsOnDay evs d).map SignalEvent.magnitude).sum

/-- Number of events of a given source on a given day. -/
def sourceCountOnDay (evs : List SignalEvent) (s : String) (d : ℕ) : ℕ :=
  ((eventsOnDay evs d).filter (fun e => decide (e.source = s))).length

/-- Number of distinct sources active on a given day. -/
def uniqueSourcesOnDay (evs : List SignalEvent) (d : ℕ) : ℕ :=
  ((eventsOnDay evs d).map SignalEvent.source).dedup.length

/-- `sorted(daily_events.keys())`: the distinct event days in ascending
order. -/
def distinctSortedDays (evs : List SignalEvent) : List ℕ :=
  ((evs.map SignalEvent.day).mergeSort (fun a b => decide (a ≤ b))).dedup

/-- FeatureMatrixBuilder._calculate_timeseries_features
(build_feature_matrix.py:168-218): over the day prefix `ds`, the last
value of each of velocity, acceleration, z-spike (window 7) and
convergence over the four known sources; all zero when fewer than two
days are available. -/
def tsFeaturesAt (stdFn : List ℚ → ℚ) (a : ℚ) (evs : List SignalEvent) (ds : List ℕ) :
    ℚ × ℚ × ℚ × ℚ :=
  if ds.length < 2 then (0, 0, 0, 0)
  else
    let values := ds.map (dailyMagnitude evs)
    let srcCounts : List (String × List ℤ) :=
      ["arxiv", "github", "jobs", "funding"].map
        (fun s => (s, ds.map (fun d => (sourceCountOnDay evs s d : ℤ))))
    let vel := calculate_velocity a values
    let acc := calculate_acceleration vel
    let zs := calculate_z_score_spike stdFn values 7
    let conv := calculate_convergence srcCounts
    (vel.getLastD 0, acc.getLastD 0, zs.getLastD 0, conv.getLastD 0)

/-- One feature record for day `d`, computed from the prefix `ds` of
days up to and including `d` (build_feature_matrix.py:89-110 together
with `_calculate_daily_metrics`). -/
def mkFeatureRecord (stdFn : List ℚ → ℚ) (a : ℚ) (tid : String)
    (evs : List SignalEvent) (ds : List ℕ) (d : ℕ) : FeatureRecord :=
  let f := tsFeaturesAt stdFn a evs ds
  { topic_id := tid
    day := d
    mention_count_total := (eventsOnDay evs d).length
    mention_count_arxiv := sourceCountOnDay evs "arxiv" d
    mention_count_github := sourceCountOnDay evs "github" d
    mention_count_jobs := sourceCountOnDay evs "jobs" d
    mention_count_funding := sourceCountOnDay evs "funding" d
    magnitude_sum := dailyMagnitude evs d
    unique_sources := uniqueSourcesOnDay evs d
    velocity := f.1
    acceleration := f.2.1
    z_spike := f.2.2.1
    convergence := f.2.2.2 }

/-- The full list of feature records for a topic, one per event day in
chronological order. -/
def mkFeatureRecords (stdFn : List ℚ → ℚ) (a : ℚ) (tid : String)
    (evs : List SignalEvent) : List FeatureRecord :=
  let ds := distinctSortedDays evs
  (List.range ds.length).map (fun i => mkFeatureRecord stdFn a tid evs (ds.take (i + 1)) (ds.getD i 0))

/-- FeatureMatrixBuilder._build_topic_features
(build_feature_matrix.py:50-130).  With existing rows in the window and
no forced rebuild, skip and report the existing count; with no events
in the window, report 0 untouched; otherwise delete the existing window
rows when a rebuild is forced and they exist, then append the newly
built records. -/
def build_topic_features (stdFn : List ℚ → ℚ) (a : ℚ) (store : List FeatureRecord)
    (tid : String) (startDay : ℕ) (events : List SignalEvent) (force : Bool) :
    List FeatureRecord × ℕ :=
  let winP : FeatureRecord → Bool := fun r => decide (r.topic_id = tid ∧ startDay ≤ r.day)
  let existing := store.filter winP
  if existing ≠ [] ∧ force = false then (store, existing.length)
  else
    let evs := events.filter (fun e => decide (e.topic_id = tid ∧ startDay ≤ e.day))
    if evs = [] then (store, 0)
    else
      let recs := mkFeatureRecords stdFn a tid evs
      let store1 := if force = true ∧ existing ≠ [] then store.filter (fun r => !(winP r)) else store
      (store1 ++ recs, recs.length)

/-! ### Helper lemmas -/

theorem meanQ_nonneg {l : List ℚ} (h : ∀ x ∈ l, 0 ≤ x) : 0 ≤ meanQ l :=
  div_nonneg (List.sum_nonneg h) (Nat.cast_nonneg _)

theorem min1max0 (x : ℚ) : min 1 (max 0 x) = max 0 (min 1 x) := by
  rcases le_total x 0 with h | h <;> rcases le_total x 1 with h1 | h1 <;>
    simp [min_def, max_def] <;> split_ifs <;> linarith

theorem ewmaFrom_length (a : ℚ) : ∀ (xs : List ℚ) (prev : ℚ), (ewmaFrom a prev xs).length = xs.length := by
  intro xs
  induction xs with
  | nil => intro prev; rfl
  | cons x rest ih => intro prev; simp [ewmaFrom, ih]

theorem ewma_length (a : ℚ) (l : List ℚ) : (ewma a l).length = l.length := by
  cases l with
  | nil => rfl
  | cons x rest => simp [ewma, ewmaFrom_length]

theorem diffs_length : ∀ l : List ℚ, (diffs l).length = l.length - 1 := by
  intro l
  induction l with
  | nil => rfl
  | cons a t ih =>
    cases t with
    | nil => rfl
    | cons b rest => simp only [diffs, List.length_cons] at ih ⊢; omega

theorem chain_le_head {e x : ℚ} (hex : e ≤ x) {l : List ℚ}
    (h : List.Chain' (· ≤ ·) (x :: l)) : List.Chain' (· ≤ ·) (e :: l) := by
  cases l with
  | nil => simp
  | cons r rr =>
    rw [List.chain'_cons] at h ⊢
    exact ⟨hex.trans h.1, h.2⟩

theorem ewmaFrom_chain {a : ℚ} (h0 : 0 ≤ a) (h1 : a ≤ 1) :
    ∀ (xs : List ℚ) (prev : ℚ), List.Chain' (· ≤ ·) (prev :: xs) →
      List.Chain' (· ≤ ·) (prev :: ewmaFrom a prev xs) := by
  intro xs
  induction xs with
  | nil => intro prev _; simp [ewmaFrom]
  | cons x rest ih =>
    intro prev hch
    rw [List.chain'_cons] at hch
    have hpx : prev ≤ x := hch.1
    have hpe : prev ≤ a * x + (1 - a) * prev := by nlinarith
    have hex : a * x + (1 - a) * prev ≤ x := by nlinarith
    have htail : List.Chain' (· ≤ ·) ((a * x + (1 - a) * prev) :: rest) :=
      chain_le_head hex hch.2
    have := ih (a * x + (1 - a) * prev) htail
    simpa [ewmaFrom, List.chain'_cons] using ⟨hpe, this⟩

theorem diffs_nonneg : ∀ l : List ℚ, List.Chain' (· ≤ ·) l → ∀ x ∈ diffs l, 0 ≤ x := by
  intro l
  induction l with
  | nil => intro _ x hx; simp [diffs] at hx
  | cons a t ih =>
    intro hch x hx
    cases t with
    | nil => simp [diffs] at hx
    | cons b rest =>
      rw [List.chain'_cons] at hch
      simp only [diffs, List.mem_cons] at hx
      rcases hx with rfl | hx
      · linarith [hch.1]
      · exact ih hch.2 x hx

/-! ### Claims about the TimeSeriesAnalyzer -/

/-- Claim C2 (code bug): on `[1,1,1,1,1,10]` with `window=5`, the
trailing window at the last index is `[1,1,1,1,1]`, whose standard
deviation is 0, so the zero-std guard yields `0.0` there — for every
`np.std` oracle the whole output is `[0,0,0,0,0,0]`, contradicting the
claimed value `> 2.0` at the last index (and the repository's own test
`test_features.py:46`).  The indices-below-window part of the claim
does hold. -/
theorem z_score_spike_zero_std_failing_input :
    ∀ stdFn : List ℚ → ℚ,
      calculate_z_score_spike stdFn [1, 1, 1, 1, 1, 10] 5 = [0, 0, 0, 0, 0, 0] ∧
      ¬ (2 < (calculate_z_score_spike stdFn [1, 1, 1, 1, 1, 10] 5).getLastD 0) := by
  intro stdFn
  have h : calculate_z_score_spike stdFn [1, 1, 1, 1, 1, 10] 5 = [0, 0, 0, 0, 0, 0] := by
    norm_num [calculate_z_score_spike, popVariance, meanQ, List.range_succ]
  refine ⟨h, ?_⟩
  rw [h]
  norm_num

/-- Claim C3 counterexample: `smooth_series` on an input shorter than
the window returns the input unchanged, not an all-zero list of the
same shape — `smooth_series [5] 3 = [5] ≠ [0]`. -/
theorem timeseries_short_input_counterexample :
    smooth_series [5] 3 = [5] ∧ smooth_series [5] 3 ≠ List.replicate 1 0 := by
  constructor
  · norm_num [smooth_series]
  · norm_num [smooth_series]

/-- Claim C3 (amended): every TimeSeriesAnalyzer function is total (it
is a total Lean function here, mirroring source code with no raising
path on short inputs), and on inputs shorter than required returns an
all-zero output of the same shape — except `smooth_series`, which
returns its input unchanged, and the functions whose normal output has
data-dependent length (`detect_change_points`, `calculate_convergence`),
which return the empty list. -/
theorem timeseries_short_input_behavior :
    ∀ (stdFn : List ℚ → ℚ) (a : ℚ) (values : List ℚ) (window : ℕ) (threshold : ℚ),
      (values.length < 2 → calculate_velocity a values = List.replicate values.length 0) ∧
      (values.length < 2 → calculate_acceleration values = List.replicate values.length 0) ∧
      (values.length < window → calculate_z_score_spike stdFn values window = List.replicate values.length 0) ∧
      (calculate_convergence [] = []) ∧
      (values.length < 3 → detect_change_points stdFn values threshold = []) ∧
      (values.length < window → smooth_series values window = values) ∧
      (values.length < 2 → calculate_trend_strength values = 0) ∧
      (values.length < window → calculate_volatility stdFn values window = List.replicate values.length 0) := by
  intro stdFn a values window threshold
  refine ⟨?_, ?_, ?_, rfl, ?_, ?_, ?_, ?_⟩
  · intro h; simp [calculate_velocity, h]
  · intro h; simp [calculate_acceleration, h]
  · intro h; simp [calculate_z_score_spike, h]
  · intro h; simp [detect_change_points, h]
  · intro h; simp [smooth_series, h]
  · intro h; simp [calculate_trend_strength, h]
  · intro h; simp [calculate_volatility, h]

/-- Witness for C3's amended theorem at concrete short inputs. -/
theorem timeseries_short_input_witness :
    calculate_velocity ((3 : ℚ)/10) [7] = List.replicate 1 0 ∧ smooth_series [5] 3 = [5] :=
  ⟨(timeseries_short_input_behavior zeroStd ((3 : ℚ)/10) [7] 3 2).1 (by norm_num),
   (timeseries_short_input_behavior zeroStd ((3 : ℚ)/10) [5] 3 2).2.2.2.2.2.1 (by norm_num)⟩

/-- Claim C7: every point estimate of the linear-trend candidate's
curve is clamped non-negative (`max(0, .)` at baseline.py:323), for
every input series and horizon, including a fitted line with negative
slope extrapolating below zero. -/
theorem linear_trend_curve_nonneg :
    ∀ (series : List ℚ) (std : ℚ) (horizon : ℕ),
      ∀ p ∈ (fit_simple_trend_model series std horizon).forecast_curve, 0 ≤ p.yhat := by
  intro series std horizon p hp
  simp only [fit_simple_trend_model, List.mem_map, List.mem_range] at hp
  obtain ⟨i, _, rfl⟩ := hp
  exact le_max_left 0 _

/-- Witness for C7 on the strictly decreasing series `[5,3,1]` (OLS
slope `-2`), whose first extrapolated point `5 - 2*3 = -1` is clamped
to `0`. -/
theorem linear_trend_curve_nonneg_witness :
    0 ≤ (ForecastPoint.mk 0 none none).yhat := by
  have hmem : (ForecastPoint.mk 0 none none) ∈ (fit_simple_trend_model [5, 3, 1] 1 2).forecast_curve := by
    norm_num [fit_simple_trend_model, olsFit, List.range_succ]
  exact linear_trend_curve_nonneg [5, 3, 1] 1 2 _ hmem

/-- Claim C8: for a non-decreasing input, the EWMA (alpha = 0.3) is
itself non-decreasing, so the velocity list has the input's length,
starts at 0 and is non-negative throughout. -/
theorem velocity_nonneg_on_monotone :
    ∀ values : List ℚ, List.Chain' (· ≤ ·) values →
      (calculate_velocity ((3 : ℚ)/10) values).length = values.length ∧
      (calculate_velocity ((3 : ℚ)/10) values).headI = 0 ∧
      ∀ x ∈ calculate_velocity ((3 : ℚ)/10) values, 0 ≤ x := by
  intro values hch
  match values, hch with
  | [], _ => exact ⟨rfl, rfl, by simp [calculate_velocity]⟩
  | [v], _ => exact ⟨rfl, rfl, by simp [calculate_velocity]⟩
  | v :: w :: rest, hch =>
    have hlen : ¬ (v :: w :: rest).length < 2 := by simp
    have hveq : calculate_velocity ((3 : ℚ)/10) (v :: w :: rest) =
        0 :: diffs (ewma ((3 : ℚ)/10) (v :: w :: rest)) := by
      simp [calculate_velocity, hlen]
    refine ⟨?_, ?_, ?_⟩
    · rw [hveq]
      have h1 : (ewma ((3 : ℚ)/10) (v :: w :: rest)).length = (v :: w :: rest).length :=
        ewma_length _ _
      have h2 := diffs_length (ewma ((3 : ℚ)/10) (v :: w :: rest))
      simp only [List.length_cons] at h1 h2 ⊢
      omega
    · rw [hveq]; rfl
    · rw [hveq]
      intro x hx
      rcases List.mem_cons.mp hx with rfl | hx
      · exact le_refl 0
      · refine diffs_nonneg _ ?_ x hx
        have : ewma ((3 : ℚ)/10) (v :: w :: rest) = v :: ewmaFrom ((3 : ℚ)/10) v (w :: rest) := rfl
        rw [this]
        exact ewmaFrom_chain (by norm_num) (by norm_num) (w :: rest) v hch

/-- Witness for C8 on the non-decreasing list `[1,2,4]`. -/
theorem velocity_nonneg_on_monotone_witness :
    (calculate_velocity ((3 : ℚ)/10) [1, 2, 4]).headI = 0 :=
  (velocity_nonneg_on_monotone [1, 2, 4] (by norm_num)).2.1

/-! ### Model selection: C4, C5, C10 -/

theorem pickBest_mae_le : ∀ (xs : List FitResult) (b : FitResult),
    (pickBest b xs).model_metrics.mae ≤ b.model_metrics.mae := by
  intro xs
  induction xs with
  | nil => intro b; exact le_refl _
  | cons x t ih =>
    intro b
    show (pickBest (if x.model_metrics.mae < b.model_metrics.mae then x else b) t).model_metrics.mae ≤ _
    refine le_trans (ih _) ?_
    split_ifs with h
    · exact le_of_lt h
    · exact le_refl _

theorem foldl_updateBest_some : ∀ (l : List (Option FitResult)) (b : FitResult),
    l.foldl updateBest (some b) = some (pickBest b (l.filterMap id)) := by
  intro l
  induction l with
  | nil => intro b; rfl
  | cons c t ih =>
    intro b
    cases c with
    | none => simpa [List.filterMap_cons, updateBest, pickBest] using ih b
    | some x =>
      by_cases h : x.model_metrics.mae < b.model_metrics.mae
      · calc (some x :: t).foldl updateBest (some b)
            = t.foldl updateBest (if x.model_metrics.mae < b.model_metrics.mae then some x else some b) := rfl
          _ = t.foldl updateBest (some x) := by rw [if_pos h]
          _ = some (pickBest x (t.filterMap id)) := ih x
          _ = some (pickBest b ((some x :: t).filterMap id)) := by
              simp [List.filterMap_cons, pickBest, if_pos h]
      · calc (some x :: t).foldl updateBest (some b)
            = t.foldl updateBest (if x.model_metrics.mae < b.model_metrics.mae then some x else some b) := rfl
          _ = t.foldl updateBest (some b) := by rw [if_neg h]
          _ = some (pickBest b (t.filterMap id)) := ih b
          _ = some (pickBest b ((some x :: t).filterMap id)) := by
              simp [List.filterMap_cons, pickBest, if_neg h]

theorem firstLowestMae_eq_none : ∀ l : List FitResult, firstLowestMae l = none ↔ l = [] := by
  intro l
  cases l with
  | nil => simp [firstLowestMae]
  | cons x t =>
    simp only [firstLowestMae]
    cases h : firstLowestMae t with
    | none => simp
    | some m =>
      show (if x.model_metrics.mae ≤ m.model_metrics.mae then some x else some m) = none ↔ x :: t = []
      split_ifs <;> simp

theorem pickBest_eq_firstLowest : ∀ (xs : List FitResult) (b : FitResult),
    some (pickBest b xs) = firstLowestMae (b :: xs) := by
  intro xs
  induction xs with
  | nil => intro b; simp [pickBest, firstLowestMae]
  | cons x rest ih =>
    intro b
    have hx := ih x
    have hb := ih b
    have hple := pickBest_mae_le rest x
    by_cases hxb : x.model_metrics.mae < b.model_metrics.mae
    · have h1 : pickBest b (x :: rest) = pickBest x rest := by
        show pickBest (if x.model_metrics.mae < b.model_metrics.mae then x else b) rest = _
        rw [if_pos hxb]
      rw [h1]
      have h2 : firstLowestMae (b :: x :: rest) =
          match firstLowestMae (x :: rest) with
          | none => some b
          | some m => if b.model_metrics.mae ≤ m.model_metrics.mae then some b else some m := rfl
      rw [h2, ← hx]
      show some (pickBest x rest) =
        if b.model_metrics.mae ≤ (pickBest x rest).model_metrics.mae then some b
        else some (pickBest x rest)
      rw [if_neg (by linarith)]
    · have hbx : b.model_metrics.mae ≤ x.model_metrics.mae := not_lt.mp hxb
      have h1 : pickBest b (x :: rest) = pickBest b rest := by
        show pickBest (if x.model_metrics.mae < b.model_metrics.mae then x else b) rest = _
        rw [if_neg hxb]
      rw [h1, hb]
      cases hrest : firstLowestMae rest with
      | none =>
        have hrnil : rest = [] := (firstLowestMae_eq_none rest).mp hrest
        subst hrnil
        simp [firstLowestMae, if_pos hbx]
      | some m =>
        by_cases hxm : x.model_metrics.mae ≤ m.model_metrics.mae
        · simp [firstLowestMae, hrest, if_pos hxm, if_pos (le_trans hbx hxm), if_pos hbx]
        · simp [firstLowestMae, hrest, if_neg hxm]

theorem generateForecastList_eq_firstLowest :
    ∀ l : List (Option FitResult), generateForecastList l = firstLowestMae (l.filterMap id) := by
  intro l
  induction l with
  | nil => rfl
  | cons c t ih =>
    cases c with
    | none => simpa [generateForecastList, List.filterMap_cons, updateBest] using ih
    | some x =>
      calc generateForecastList (some x :: t) = t.foldl updateBest (some x) := rfl
        _ = some (pickBest x (t.filterMap id)) := foldl_updateBest_some t x
        _ = firstLowestMae (x :: t.filterMap id) := pickBest_eq_firstLowest _ x
        _ = firstLowestMae ((some x :: t).filterMap id) := by simp [List.filterMap_cons]

theorem firstLowestMae_spec : ∀ (l : List FitResult) (r : FitResult),
    firstLowestMae l = some r →
      r ∈ l ∧ ∀ x ∈ l, r.model_metrics.mae ≤ x.model_metrics.mae := by
  intro l
  induction l with
  | nil => intro r h; exact absurd h (by simp [firstLowestMae])
  | cons x t ih =>
    intro r h
    rw [show firstLowestMae (x :: t) =
        match firstLowestMae t with
        | none => some x
        | some m => if x.model_metrics.mae ≤ m.model_metrics.mae then some x else some m from rfl] at h
    cases ht : firstLowestMae t with
    | none =>
      rw [ht] at h
      have hrnil : t = [] := (firstLowestMae_eq_none t).mp ht
      subst hrnil
      simp only [Option.some.injEq] at h
      subst h
      exact ⟨List.mem_singleton.mpr rfl, by intro y hy; simp at hy; subst hy; exact le_refl _⟩
    | some m =>
      rw [ht] at h
      obtain ⟨hmem, hmin⟩ := ih m ht
      have h2 : (if x.model_metrics.mae ≤ m.model_metrics.mae then some x else some m) = some r := h
      by_cases hxm : x.model_metrics.mae ≤ m.model_metrics.mae
      · rw [if_pos hxm] at h2
        simp only [Option.some.injEq] at h2
        subst h2
        refine ⟨List.mem_cons_self _ _, ?_⟩
        intro y hy
        rcases List.mem_cons.mp hy with rfl | hy
        · exact le_refl _
        · exact le_trans hxm (hmin y hy)
      · rw [if_neg hxm] at h2
        simp only [Option.some.injEq] at h2
        subst h2
        refine ⟨List.mem_cons_of_mem _ hmem, ?_⟩
        intro y hy
        rcases List.mem_cons.mp hy with rfl | hy
        · exact le_of_lt (not_le.mp hxm)
        · exact hmin y hy

theorem generateForecastList_mem : ∀ (l : List (Option FitResult)) (r : FitResult),
    generateForecastList l = some r → some r ∈ l := by
  intro l r h
  rw [generateForecastList_eq_firstLowest] at h
  have := (firstLowestMae_spec _ r h).1
  obtain ⟨a, ha, hid⟩ := List.mem_filterMap.mp this
  cases a with
  | none => exact absurd hid (by simp)
  | some b =>
    rw [show id (some b) = some b from rfl, Option.some.injEq] at hid
    subst hid
    exact ha

theorem generateForecastList_all_none {l : List (Option FitResult)}
    (h : ∀ c ∈ l, c = none) : generateForecastList l = none := by
  rw [generateForecastList_eq_firstLowest]
  have : l.filterMap id = [] := List.filterMap_eq_nil_iff.mpr (by intro a ha; simp [h a ha])
  rw [this]
  rfl

/-- Claim C4: the selector tries the candidates in the fixed order
ARIMA, exponential smoothing, linear trend (the dict insertion order of
baseline.py:174-178), keeps an incumbent only against strictly smaller
mae, and the result is exactly the earliest successful candidate with
the lowest in-sample mae (ties go to the earlier candidate). -/
theorem model_selection_first_lowest_mae :
    ∀ (arima es simple : Option FitResult),
      generate_forecast arima es simple = firstLowestMae ([arima, es, simple].filterMap id) ∧
      (∀ r, generate_forecast arima es simple = some r →
        r ∈ [arima, es, simple].filterMap id ∧
        ∀ x ∈ [arima, es, simple].filterMap id,
          r.model_metrics.mae ≤ x.model_metrics.mae) := by
  intro arima es simple
  refine ⟨generateForecastList_eq_firstLowest _, ?_⟩
  intro r h
  rw [generate_forecast, generateForecastList_eq_firstLowest] at h
  exact firstLowestMae_spec _ r h

/-- Fit fixture: an exponential-smoothing result with mae 2. -/
def esTieFit : FitResult :=
  { forecast_curve := [], confidence_score := 0, model_type := "ExponentialSmoothing",
    model_metrics := ⟨2, 0⟩ }

/-- Fit fixture: a linear-trend result with the same mae 2. -/
def trendTieFit : FitResult :=
  { forecast_curve := [], confidence_score := 0, model_type := "LinearTrend",
    model_metrics := ⟨2, 0⟩ }

/-- Witness for C4: with the ARIMA candidate failed and the remaining
two tied on mae, the earlier candidate (exponential smoothing) wins. -/
theorem model_selection_tie_witness :
    generate_forecast none (some esTieFit) (some trendTieFit) = some esTieFit := by
  have h := (model_selection_first_lowest_mae none (some esTieFit) (some trendTieFit)).1
  rw [h]
  norm_num [firstLowestMae, esTieFit, trendTieFit, List.filterMap_cons]

/-- Claim C5: batch error containment.  (1) With no pre-existing
forecast for the key, insufficient data yields count 0 and an untouched
store; (2) a candidate that threw (entered as `none`) is skipped
without affecting the selection over the remaining candidates; (3) all
candidates failing yields count 0 and an untouched store ("no
forecast"); (4)-(6) the batch result maps of `forecast_all_topics` and
`build_feature_matrix` carry one entry per topic, with a per-topic
exception recorded as an error tag resp. count 0 while every other
topic is still processed — the batch functions are total, so nothing
propagates. -/
theorem batch_error_containment :
    ∀ (store : List StoredForecast) (tid : String) (hz : ℕ) (force : Bool)
      (fd : List FeatureRow) (mp : ℕ) (w : SurgeWeights)
      (cands cs : List (Option FitResult)) (topics : List String)
      (fRun : String → Except String (List (String × ℕ)))
      (gRun : String → Except String ℕ) (t : String) (msg : String) (m : List (String × ℕ)),
      (store.filter (fun r => decide (r.topic_id = tid ∧ r.horizon_days = hz)) = [] →
        fd.length < mp →
        forecast_topic_horizon store tid hz force fd mp cands w = (store, 0)) ∧
      (generateForecastList (none :: cs) = generateForecastList cs) ∧
      (store.filter (fun r => decide (r.topic_id = tid ∧ r.horizon_days = hz)) = [] →
        (∀ c ∈ cands, c = none) →
        forecast_topic_horizon store tid hz force fd mp cands w = (store, 0)) ∧
      ((forecast_all_topics topics fRun).map Prod.fst = topics) ∧
      (t ∈ topics → fRun t = Except.error msg →
        (t, TopicResult.error msg) ∈ forecast_all_topics topics fRun) ∧
      (t ∈ topics → fRun t = Except.ok m →
        (t, TopicResult.counts m) ∈ forecast_all_topics topics fRun) ∧
      ((build_feature_matrix topics gRun).map Prod.fst = topics) ∧
      (t ∈ topics → gRun t = Except.error msg → (t, 0) ∈ build_feature_matrix topics gRun) := by
  intro store tid hz force fd mp w cands cs topics fRun gRun t msg m
  refine ⟨?_, rfl, ?_, ?_, ?_, ?_, ?_, ?_⟩
  · intro hex hfd
    simp only [forecast_topic_horizon]
    rw [hex]
    simp [hfd]
  · intro hex hall
    have hg : generateForecastList cands = none := generateForecastList_all_none hall
    simp only [forecast_topic_horizon]
    rw [hex, hg]
    by_cases hfd : fd.length < mp <;> simp [hfd]
  · simp only [forecast_all_topics, List.map_map]
    exact List.map_id topics
  · intro ht hrun
    exact List.mem_map.mpr ⟨t, ht, by rw [hrun]⟩
  · intro ht hrun
    exact List.mem_map.mpr ⟨t, ht, by rw [hrun]⟩
  · simp only [build_feature_matrix, List.map_map]
    exact List.map_id topics
  · intro ht hrun
    exact List.mem_map.mpr ⟨t, ht, by rw [hrun]⟩

/-- Witness for C5 at concrete inputs: an empty store with too little
data yields count 0, and a one-topic batch whose run throws yields an
error entry. -/
theorem batch_error_containment_witness :
    forecast_topic_horizon [] "t" 30 false [] 14 [] ⟨1, 1, 1, 1⟩ = ([], 0) ∧
    ("t", TopicResult.error "boom") ∈
      forecast_all_topics ["t"] (fun _ => Except.error "boom") := by
  constructor
  · exact (batch_error_containment [] "t" 30 false [] 14 ⟨1, 1, 1, 1⟩ [] [] ["t"]
      (fun _ => Except.error "boom") (fun _ => Except.error "boom") "t" "boom" []).1
      rfl (by norm_num)
  · exact (batch_error_containment [] "t" 30 false [] 14 ⟨1, 1, 1, 1⟩ [] [] ["t"]
      (fun _ => Except.error "boom") (fun _ => Except.error "boom") "t" "boom" []).2.2.2.2.1
      (by simp) rfl

/-- Claim C10: with an existing forecast for the (topic, horizon) key
and no forced rebuild, `_forecast_topic_horizon` returns the store
unchanged with count 1 (baseline.py:79-81), and the batch tally is
exactly the sum of the per-topic ok-counts, so the skipped pair
contributes 1 to the total. -/
theorem skip_existing_counts_one :
    ∀ (store : List StoredForecast) (tid : String) (hz : ℕ)
      (fd : List FeatureRow) (mp : ℕ) (cands : List (Option FitResult)) (w : SurgeWeights)
      (topics : List String) (fRun : String → Except String (List (String × ℕ))),
      (store.filter (fun r => decide (r.topic_id = tid ∧ r.horizon_days = hz)) ≠ [] →
        forecast_topic_horizon store tid hz false fd mp cands w = (store, 1)) ∧
      (totalForecasts (forecast_all_topics topics fRun) =
        (topics.map (fun u =>
          match fRun u with
          | Except.ok m => (m.map Prod.snd).sum
          | Except.error _ => 0)).sum) := by
  intro store tid hz fd mp cands w topics fRun
  constructor
  · intro hex
    simp only [forecast_topic_horizon]
    rw [if_pos ⟨hex, trivial⟩]
  · simp only [totalForecasts, forecast_all_topics, List.map_map]
    congr 1
    refine List.map_congr_left ?_
    intro u _
    cases h : fRun u <;> simp [Function.comp, h]

/-- Forecast-store fixture: one persisted row for topic `"t"`,
horizon 30. -/
def sampleStored : StoredForecast :=
  { topic_id := "t", horizon_days := 30, forecast_curve := [], surge_score := 0,
    confidence_score := 0, model_type := "ARIMA" }

/-- Witness for C10: a store holding a forecast for `("t", 30)` is
returned unchanged with count 1. -/
theorem skip_existing_counts_one_witness :
    forecast_topic_horizon [sampleStored] "t" 30 false [] 14 [] ⟨1, 1, 1, 1⟩ =
      ([sampleStored], 1) :=
  (skip_existing_counts_one [sampleStored] "t" 30 [] 14 [] ⟨1, 1, 1, 1⟩ [] (fun _ => Except.ok [])).1
    (by simp [sampleStored])

/-! ### Invariants of produced forecast records: C1 -/

theorem calculate_surge_score_bounds (w : SurgeWeights) (fd : List FeatureRow)
    (curve : List ForecastPoint) :
    0 ≤ calculate_surge_score w fd curve ∧ calculate_surge_score w fd curve ≤ 1 := by
  rw [calculate_surge_score]
  by_cases h : (fd.drop (fd.length - 7)).isEmpty
  · rw [if_pos h]
    norm_num
  · rw [if_neg h]
    exact ⟨le_max_left _ _, max_le zero_le_one (min_le_left _ _)⟩

theorem confidenceScore_bounds {mae : ℚ} (std : ℚ) (h : 0 ≤ mae) :
    0 ≤ confidenceScore mae std ∧ confidenceScore mae std ≤ 1 := by
  rw [confidenceScore]
  split_ifs with hs
  · refine ⟨le_max_left _ _, max_le zero_le_one ?_⟩
    have := div_nonneg h (le_of_lt hs)
    linarith
  · norm_num

theorem replaceFirst_mem (p : StoredForecast → Bool) (new : StoredForecast) :
    ∀ (l : List StoredForecast) (x : StoredForecast),
      x ∈ replaceFirst p new l → x ∈ l ∨ x = new := by
  intro l
  induction l with
  | nil => intro x hx; simp [replaceFirst] at hx
  | cons y t ih =>
    intro x hx
    rw [replaceFirst] at hx
    split_ifs at hx
    · rcases List.mem_cons.mp hx with rfl | hx
      · exact Or.inr rfl
      · exact Or.inl (List.mem_cons_of_mem _ hx)
    · rcases List.mem_cons.mp hx with rfl | hx
      · exact Or.inl (List.mem_cons_self _ _)
      · rcases ih x hx with hm | rfl
        · exact Or.inl (List.mem_cons_of_mem _ hm)
        · exact Or.inr rfl

theorem fit_invariant (oa : ArimaOracle) (oe : EsOracle) (series : List ℚ) (std : ℚ)
    (horizon : ℕ) (fit : FitResult) (hma : 0 ≤ oa.mae) (hme : 0 ≤ oe.mae)
    (hfit : fit = fit_arima_model oa horizon ∨ fit = fit_exponential_smoothing_model oe horizon ∨
      fit = fit_simple_trend_model series std horizon) :
    fit.forecast_curve.length = horizon ∧ 0 ≤ fit.confidence_score ∧ fit.confidence_score ≤ 1 := by
  rcases hfit with rfl | rfl | rfl
  · exact ⟨by simp [fit_arima_model], (confidenceScore_bounds oa.std hma).1,
      (confidenceScore_bounds oa.std hma).2⟩
  · exact ⟨by simp [fit_exponential_smoothing_model], (confidenceScore_bounds oe.std hme).1,
      (confidenceScore_bounds oe.std hme).2⟩
  · have hmae : (0 : ℚ) ≤ (fit_simple_trend_model series std horizon).model_metrics.mae := by
      refine meanQ_nonneg ?_
      intro x hx
      simp only [List.mem_map] at hx
      obtain ⟨q, _, rfl⟩ := hx
      exact abs_nonneg _
    have hlen : (fit_simple_trend_model series std horizon).forecast_curve.length = horizon := by
      have h1 : (fit_simple_trend_model series std horizon).forecast_curve =
          (List.range horizon).map (fun i : ℕ => ForecastPoint.mk
            (max 0 ((olsFit series).2 + (olsFit series).1 * ((series.length : ℚ) + (i : ℚ))))
            none none) := rfl
      rw [h1, List.length_map, List.length_range]
    exact ⟨hlen, (confidenceScore_bounds std hmae).1, (confidenceScore_bounds std hmae).2⟩

/-- Claim C1: every forecast record produced (inserted or updated) by
`_forecast_topic_horizon` — with the three candidates being the
embedded fits over arbitrary library oracles (whose in-sample mae is
non-negative, as `mean_absolute_error` always is) or failed (`none`) —
has a curve of exactly `horizon` points and surge and confidence scores
in [0,1], for every feature history and every weight configuration. -/
theorem forecast_record_invariant :
    ∀ (store : List StoredForecast) (tid : String) (horizon : ℕ) (force : Bool)
      (fd : List FeatureRow) (mp : ℕ) (w : SurgeWeights)
      (oa : ArimaOracle) (oe : EsOracle) (series : List ℚ) (std : ℚ)
      (c1c c2c c3c : Option FitResult),
      0 ≤ oa.mae → 0 ≤ oe.mae →
      (c1c = none ∨ c1c = some (fit_arima_model oa horizon)) →
      (c2c = none ∨ c2c = some (fit_exponential_smoothing_model oe horizon)) →
      (c3c = none ∨ c3c = some (fit_simple_trend_model series std horizon)) →
      ∀ r ∈ (forecast_topic_horizon store tid horizon force fd mp [c1c, c2c, c3c] w).1,
        r ∈ store ∨
        (r.forecast_curve.length = horizon ∧
          0 ≤ r.surge_score ∧ r.surge_score ≤ 1 ∧
          0 ≤ r.confidence_score ∧ r.confidence_score ≤ 1) := by
  intro store tid horizon force fd mp w oa oe series std c1c c2c c3c hma hme h1 h2 h3 r hr
  simp only [forecast_topic_horizon] at hr
  by_cases hc1 : (store.filter (fun s => decide (s.topic_id = tid ∧ s.horizon_days = horizon)) ≠ [] ∧ force = false)
  · rw [if_pos hc1] at hr
    exact Or.inl hr
  · rw [if_neg hc1] at hr
    by_cases hc2 : fd.length < mp
    · rw [if_pos hc2] at hr
      exact Or.inl hr
    · rw [if_neg hc2] at hr
      split at hr
      next hg => exact Or.inl hr
      next fit hg =>
        have hfit : fit = fit_arima_model oa horizon ∨
            fit = fit_exponential_smoothing_model oe horizon ∨
            fit = fit_simple_trend_model series std horizon := by
          have hmem := generateForecastList_mem _ _ hg
          simp only [List.mem_cons, List.not_mem_nil, or_false] at hmem
          rcases hmem with h | h | h
          · rcases h1 with hn | he
            · rw [hn] at h; exact absurd h (by simp)
            · rw [he, Option.some.injEq] at h; exact Or.inl h
          · rcases h2 with hn | he
            · rw [hn] at h; exact absurd h (by simp)
            · rw [he, Option.some.injEq] at h; exact Or.inr (Or.inl h)
          · rcases h3 with hn | he
            · rw [hn] at h; exact absurd h (by simp)
            · rw [he, Option.some.injEq] at h; exact Or.inr (Or.inr h)
        have hinv := fit_invariant oa oe series std horizon fit hma hme hfit
        have hsurge := calculate_surge_score_bounds w fd fit.forecast_curve
        by_cases hc3 : (store.filter (fun s => decide (s.topic_id = tid ∧ s.horizon_days = horizon)) ≠ [])
        · rw [if_pos hc3] at hr
          rcases replaceFirst_mem _ _ store r hr with hm | rfl
          · exact Or.inl hm
          · exact Or.inr ⟨hinv.1, hsurge.1, hsurge.2, hinv.2.1, hinv.2.2⟩
        · rw [if_neg hc3] at hr
          simp only [List.mem_append, List.mem_singleton] at hr
          rcases hr with hm | rfl
          · exact Or.inl hm
          · exact Or.inr ⟨hinv.1, hsurge.1, hsurge.2, hinv.2.1, hinv.2.2⟩

/-- ARIMA oracle fixture for the C1 witness. -/
def oaW : ArimaOracle :=
  { yhat := fun _ => 0, lower := fun _ => 0, upper := fun _ => 0, mae := 0, mse := 0, std := 1 }

/-- Exponential-smoothing oracle fixture for the C1 witness. -/
def oeW : EsOracle := { yhat := fun _ => 0, mae := 0, mse := 0, std := 1 }

/-- The record produced in the C1 witness run. -/
def c1WitnessRecord : StoredForecast :=
  { topic_id := "t", horizon_days := 0, forecast_curve := [], surge_score := 0,
    confidence_score := 1, model_type := "ARIMA" }

/-- Witness for C1: a fresh run over an empty store with the ARIMA
candidate produces a record satisfying the invariant. -/
theorem forecast_record_invariant_witness :
    c1WitnessRecord ∈ ([] : List StoredForecast) ∨
      (c1WitnessRecord.forecast_curve.length = 0 ∧
        0 ≤ c1WitnessRecord.surge_score ∧ c1WitnessRecord.surge_score ≤ 1 ∧
        0 ≤ c1WitnessRecord.confidence_score ∧ c1WitnessRecord.confidence_score ≤ 1) := by
  have hmem : c1WitnessRecord ∈
      (forecast_topic_horizon [] "t" 0 false [] 0
        [some (fit_arima_model oaW 0), none, none] ⟨1, 1, 1, 1⟩).1 := by
    have hst : (forecast_topic_horizon [] "t" 0 false [] 0
        [some (fit_arima_model oaW 0), none, none] ⟨1, 1, 1, 1⟩).1 = [c1WitnessRecord] := by
      norm_num [forecast_topic_horizon, generateForecastList, updateBest, fit_arima_model,
        confidenceScore, calculate_surge_score, c1WitnessRecord, oaW]
    rw [hst]
    exact List.mem_singleton.mpr rfl
  exact forecast_record_invariant [] "t" 0 false [] 0 ⟨1, 1, 1, 1⟩ oaW oeW [] 1
    (some (fit_arima_model oaW 0)) none none (le_refl 0) (le_refl 0)
    (Or.inr rfl) (Or.inl rfl) (Or.inl rfl) c1WitnessRecord hmem

/-! ### The ranking pipeline: C6 -/

theorem rankingLe_trans : ∀ a b c : RankCandidate × ℚ,
    rankingLe a b = true → rankingLe b c = true → rankingLe a c = true := by
  intro a b c hab hbc
  simp only [rankingLe, decide_eq_true_eq] at hab hbc ⊢
  exact le_trans hbc hab

theorem rankingLe_total : ∀ a b : RankCandidate × ℚ,
    (rankingLe a b || rankingLe b a) = true := by
  intro a b
  simp only [rankingLe, Bool.or_eq_true, decide_eq_true_eq]
  exact le_total b.2 a.2

theorem calculate_ranking_score_eq_spec (c : RankCandidate) :
    calculate_ranking_score c = spec_ranking_score c := by
  rw [calculate_ranking_score, spec_ranking_score]
  simp only [clamp, min1max0]

/-- Claim C6: `rank_topics` scores every candidate with the weighted
formula of the spec (0.4/0.2/0.2/0.1/0.1 with clamped velocity and
growth components and the 1.1x / 0.8x multipliers), stably sorts the
full candidate set descending by that score, assigns consecutive
1-based ranks by position, and only then truncates to the limit: the
output has `min limit l.length` entries, rank `i+1` at index `i`,
descending scores, scores equal to the spec formula, every dropped
candidate scoring no higher than every kept one, and ties keeping
input order (stability as sublist preservation). -/
theorem rank_topics_spec :
    ∀ (l : List RankCandidate) (limit : ℕ),
      (rank_topics l limit).length = min limit l.length ∧
      (∀ i (h : i < (rank_topics l limit).length),
        ((rank_topics l limit).get ⟨i, h⟩).rank = i + 1) ∧
      (rank_topics l limit).Pairwise (fun x y => y.ranking_score ≤ x.ranking_score) ∧
      (∀ e ∈ rank_topics l limit, e.ranking_score = spec_ranking_score e.cand) ∧
      (∀ e ∈ rank_topics l limit,
        ∀ q ∈ ((l.map (fun c => (c, calculate_ranking_score c))).mergeSort rankingLe).drop limit,
          q.2 ≤ e.ranking_score) ∧
      (∀ a b : RankCandidate × ℚ,
        [a, b].Sublist (l.map (fun c => (c, calculate_ranking_score c))) → a.2 = b.2 →
        [a, b].Sublist ((l.map (fun c => (c, calculate_ranking_score c))).mergeSort rankingLe)) := by
  intro l limit
  have hsort : ((l.map (fun c => (c, calculate_ranking_score c))).mergeSort rankingLe).Pairwise
      (fun a b => rankingLe a b = true) :=
    List.sorted_mergeSort rankingLe_trans rankingLe_total _
  have hperm : ((l.map (fun c => (c, calculate_ranking_score c))).mergeSort rankingLe).Perm
      (l.map (fun c => (c, calculate_ranking_score c))) :=
    List.mergeSort_perm _ _
  have hlen_sorted : ((l.map (fun c => (c, calculate_ranking_score c))).mergeSort rankingLe).length
      = l.length := by
    rw [List.length_mergeSort, List.length_map]
  have hrt : rank_topics l limit =
      ((((l.map (fun c => (c, calculate_ranking_score c))).mergeSort rankingLe).take limit).enum).map
        (fun p => ⟨p.2.1, p.2.2, p.1 + 1⟩) := rfl
  refine ⟨?_, ?_, ?_, ?_, ?_, ?_⟩
  · rw [hrt]
    simp [List.length_take, hlen_sorted]
  · intro i h
    simp only [hrt, List.get_eq_getElem, List.getElem_map, List.getElem_enum]
  · rw [hrt, List.pairwise_iff_getElem]
    intro i j hi hj hij
    simp only [List.length_map, List.enum_length, List.length_take] at hi hj
    simp only [List.getElem_map, List.getElem_enum]
    rw [List.getElem_take, List.getElem_take]
    have hps := List.pairwise_iff_getElem.mp hsort i j (by omega) (by omega) hij
    simpa [rankingLe] using hps
  · intro e he
    rw [hrt] at he
    simp only [List.mem_map] at he
    obtain ⟨p, hp, rfl⟩ := he
    obtain ⟨i, x⟩ := p
    have hx := List.mem_enum hp
    have hxt : x ∈ (((l.map (fun c => (c, calculate_ranking_score c))).mergeSort rankingLe).take limit) := by
      rw [hx.2]
      exact List.getElem_mem _
    have hx2 : x ∈ (l.map (fun c => (c, calculate_ranking_score c))) :=
      hperm.mem_iff.mp (List.mem_of_mem_take hxt)
    simp only [List.mem_map] at hx2
    obtain ⟨c, _, hc⟩ := hx2
    have h1 : x.2 = calculate_ranking_score x.1 := by rw [← hc]
    simpa using h1.trans (calculate_ranking_score_eq_spec x.1)
  · intro e he q hq
    rw [hrt] at he
    simp only [List.mem_map] at he
    obtain ⟨p, hp, rfl⟩ := he
    obtain ⟨i, x⟩ := p
    have hx := List.mem_enum hp
    have hi : i < limit := by
      have := hx.1
      simp only [List.length_take] at this
      omega
    have hi2 : i < ((l.map (fun c => (c, calculate_ranking_score c))).mergeSort rankingLe).length := by
      have := hx.1
      simp only [List.length_take] at this
      omega
    obtain ⟨j, hj, hjq⟩ := List.getElem_of_mem hq
    simp only [List.length_drop] at hj
    rw [List.getElem_drop] at hjq
    have hps := List.pairwise_iff_getElem.mp hsort i (limit + j) (by omega) (by omega) (by omega)
    simp only [rankingLe, decide_eq_true_eq] at hps
    have hxe : x = ((l.map (fun c => (c, calculate_ranking_score c))).mergeSort rankingLe).get ⟨i, hi2⟩ := by
      rw [hx.2, List.getElem_take]
      rfl
    rw [← hjq]
    show _ ≤ x.2
    rw [hxe]
    exact hps
  · intro a b hab heq
    refine List.sublist_mergeSort rankingLe_trans rankingLe_total ?_ hab
    simp [List.pairwise_cons, rankingLe, heq]

/-- Candidate fixture for the C6 witness: confidence 1, everything else
zero, score 0.2. -/
def c6A : RankCandidate :=
  { topic_id := "a", surge_score := 0, confidence := 1, growth_rate := 0,
    recent_velocity := 0, recent_convergence := 0 }

/-- Second candidate fixture with the same score as `c6A`. -/
def c6B : RankCandidate :=
  { topic_id := "b", surge_score := 0, confidence := 1, growth_rate := 0,
    recent_velocity := 0, recent_convergence := 0 }

/-- Witness for C6: two candidates tied on score keep their input order
through the stable sort. -/
theorem rank_topics_spec_witness :
    [(c6A, calculate_ranking_score c6A), (c6B, calculate_ranking_score c6B)].Sublist
      (([c6A, c6B].map (fun c => (c, calculate_ranking_score c))).mergeSort rankingLe) := by
  refine (rank_topics_spec [c6A, c6B] 2).2.2.2.2.2
    (c6A, calculate_ranking_score c6A) (c6B, calculate_ranking_score c6B) ?_ ?_
  · exact List.Sublist.refl _
  · norm_num [calculate_ranking_score, c6A, c6B]

/-! ### Feature store rebuild semantics: C9 -/

theorem mkFeatureRecords_fields (stdFn : List ℚ → ℚ) (a : ℚ) (tid : String)
    (evs : List SignalEvent) :
    ∀ r ∈ mkFeatureRecords stdFn a tid evs,
      r.topic_id = tid ∧ r.day ∈ evs.map SignalEvent.day := by
  intro r hr
  simp only [mkFeatureRecords, List.mem_map, List.mem_range] at hr
  obtain ⟨i, hi, rfl⟩ := hr
  refine ⟨rfl, ?_⟩
  show (distinctSortedDays evs).getD i 0 ∈ _
  rw [List.getD_eq_getElem _ _ hi]
  have hmem : (distinctSortedDays evs)[i] ∈ distinctSortedDays evs := List.getElem_mem _
  simp only [distinctSortedDays] at hmem ⊢
  have h2 := List.mem_dedup.mp hmem
  exact ((List.mergeSort_perm _ _).mem_iff).mp h2

theorem mkFeatureRecords_ne_nil (stdFn : List ℚ → ℚ) (a : ℚ) (tid : String)
    {evs : List SignalEvent} (h : evs ≠ []) : mkFeatureRecords stdFn a tid evs ≠ [] := by
  simp only [mkFeatureRecords]
  intro hcon
  have h1 : (distinctSortedDays evs).length = 0 := by
    have := congrArg List.length hcon
    simpa using this
  have h2 : distinctSortedDays evs = [] := List.length_eq_zero.mp h1
  simp only [distinctSortedDays] at h2
  have h3 := (List.dedup_eq_nil _).mp h2
  have h4 := congrArg List.length h3
  rw [List.length_mergeSort, List.length_map] at h4
  simp only [List.length_nil] at h4
  exact h (List.length_eq_zero.mp h4)

/-- Claim C9 (amended): rebuilding with `force_rebuild=False` a second
time is a no-op on the store; with `force_rebuild=True` and at least
one event for the topic in the window, the existing window rows are
deleted and exactly the newly built records are appended; with no
events in the window the forced rebuild returns 0 and leaves the store
untouched (the early return of build_feature_matrix.py:71-73 fires
before the deletion of lines 113-116). -/
theorem feature_rebuild_semantics :
    ∀ (stdFn : List ℚ → ℚ) (a : ℚ) (store : List FeatureRecord) (tid : String)
      (startDay : ℕ) (events : List SignalEvent),
      ((build_topic_features stdFn a
          (build_topic_features stdFn a store tid startDay events false).1
          tid startDay events false).1 =
        (build_topic_features stdFn a store tid startDay events false).1) ∧
      (events.filter (fun e => decide (e.topic_id = tid ∧ startDay ≤ e.day)) ≠ [] →
        (build_topic_features stdFn a store tid startDay events true).1 =
          store.filter (fun r => !(decide (r.topic_id = tid ∧ startDay ≤ r.day))) ++
          mkFeatureRecords stdFn a tid
            (events.filter (fun e => decide (e.topic_id = tid ∧ startDay ≤ e.day)))) ∧
      (events.filter (fun e => decide (e.topic_id = tid ∧ startDay ≤ e.day)) = [] →
        build_topic_features stdFn a store tid startDay events true = (store, 0)) := by
  intro stdFn a store tid startDay events
  have hrecP : ∀ r ∈ mkFeatureRecords stdFn a tid
      (events.filter (fun e => decide (e.topic_id = tid ∧ startDay ≤ e.day))),
      (decide (r.topic_id = tid ∧ startDay ≤ r.day)) = true := by
    intro r hr
    obtain ⟨htid, hday⟩ := mkFeatureRecords_fields stdFn a tid _ r hr
    simp only [List.mem_map] at hday
    obtain ⟨e, he, hde⟩ := hday
    have := List.of_mem_filter he
    simp only [decide_eq_true_eq] at this
    simp only [decide_eq_true_eq]
    exact ⟨htid, hde ▸ this.2⟩
  refine ⟨?_, ?_, ?_⟩
  · by_cases hex : store.filter (fun r => decide (r.topic_id = tid ∧ startDay ≤ r.day)) = []
    · by_cases hev : events.filter (fun e => decide (e.topic_id = tid ∧ startDay ≤ e.day)) = []
      · have h1 : build_topic_features stdFn a store tid startDay events false = (store, 0) := by
          simp only [build_topic_features]
          rw [if_neg (fun hcon => hcon.1 hex), if_pos hev]
        rw [h1]
        rw [h1]
      · have h1 : build_topic_features stdFn a store tid startDay events false =
            (store ++ mkFeatureRecords stdFn a tid
              (events.filter (fun e => decide (e.topic_id = tid ∧ startDay ≤ e.day))),
             (mkFeatureRecords stdFn a tid
              (events.filter (fun e => decide (e.topic_id = tid ∧ startDay ≤ e.day)))).length) := by
          simp only [build_topic_features]
          rw [if_neg (fun hcon => hcon.1 hex), if_neg hev, if_neg (by simp)]
        rw [h1]
        have hne : ((store ++ mkFeatureRecords stdFn a tid
            (events.filter (fun e => decide (e.topic_id = tid ∧ startDay ≤ e.day)))).filter
              (fun r => decide (r.topic_id = tid ∧ startDay ≤ r.day))) ≠ [] := by
          rw [List.filter_append, List.filter_eq_self.mpr hrecP]
          intro hcon
          exact mkFeatureRecords_ne_nil stdFn a tid hev (by
            have := congrArg List.length hcon
            simp only [List.length_append, List.length_nil] at this
            exact List.length_eq_zero.mp (by omega))
        simp only [build_topic_features]
        rw [if_pos ⟨hne, trivial⟩]
    · have h1 : build_topic_features stdFn a store tid startDay events false =
          (store, (store.filter (fun r => decide (r.topic_id = tid ∧ startDay ≤ r.day))).length) := by
        simp only [build_topic_features]
        rw [if_pos ⟨hex, trivial⟩]
      rw [h1]
      rw [h1]
  · intro hev
    simp only [build_topic_features]
    rw [if_neg (by simp), if_neg hev]
    by_cases hex : store.filter (fun r => decide (r.topic_id = tid ∧ startDay ≤ r.day)) = []
    · rw [if_neg (fun hcon => hcon.2 hex)]
      have hself : store.filter (fun r => !(decide (r.topic_id = tid ∧ startDay ≤ r.day))) = store := by
        refine List.filter_eq_self.mpr ?_
        intro x hx
        have h3 := List.filter_eq_nil_iff.mp hex x hx
        simp only [Bool.not_eq_true', decide_eq_false_iff_not]
        intro hcon
        exact h3 (by simpa using hcon)
      rw [hself]
    · rw [if_pos ⟨trivial, hex⟩]
  · intro hev
    simp only [build_topic_features]
    rw [if_neg (by simp), if_pos hev]

/-- Feature-store fixture: one stored row for topic `"t"`, day 5. -/
def sampleFeatureRecord : FeatureRecord :=
  { topic_id := "t", day := 5, mention_count_total := 0, mention_count_arxiv := 0,
    mention_count_github := 0, mention_count_jobs := 0, mention_count_funding := 0,
    magnitude_sum := 0, unique_sources := 0, velocity := 0, acceleration := 0,
    z_spike := 0, convergence := 0 }

/-- Claim C9 counterexample: a forced rebuild with no events in the
window does NOT delete the existing window rows — the old row, absent
from the (empty) new set, survives, contradicting the claim that it is
gone. -/
theorem feature_force_rebuild_counterexample :
    (build_topic_features zeroStd ((3 : ℚ)/10) [sampleFeatureRecord] "t" 0 [] true).1 =
      [sampleFeatureRecord] ∧
    sampleFeatureRecord ∈
      (build_topic_features zeroStd ((3 : ℚ)/10) [sampleFeatureRecord] "t" 0 [] true).1 := by
  have h : (build_topic_features zeroStd ((3 : ℚ)/10) [sampleFeatureRecord] "t" 0 [] true) =
      ([sampleFeatureRecord], 0) := by
    simp only [build_topic_features]
    rw [if_neg (by simp),
      if_pos (show List.filter (fun e => decide (e.topic_id = "t" ∧ 0 ≤ e.day))
        ([] : List SignalEvent) = [] from rfl)]
  exact ⟨by rw [h], by rw [h]; exact List.mem_singleton.mpr rfl⟩

/-- Witness for C9's amended theorem: a forced rebuild over an empty
event window returns 0 and leaves the store untouched. -/
theorem feature_rebuild_semantics_witness :
    build_topic_features zeroStd ((3 : ℚ)/10) [sampleFeatureRecord] "t" 0 [] true =
      ([sampleFeatureRecord], 0) :=
  (feature_rebuild_semantics zeroStd ((3 : ℚ)/10) [sampleFeatureRecord] "t" 0 []).2.2 rfl
